import Mathlib

set_option maxHeartbeats 1600000

/-!
Shallow embedding of `src/nbytes/bytes.go` (`DelimitedStreamWriter`,
`DelimitedStreamReader`) and `src/nbytes/lexer.go` (`ByteLexer`) from the
gokit/npkg repository.

Bytes are modelled as `Nat` values; the code only ever compares bytes for
equality, so no modular arithmetic is involved.  The writer's buffered output
stage (`bufio.Writer`) forwards bytes to the destination unchanged and in
order, so the model keeps a single `out` list: the stream of bytes handed to
the buffered writer, which is exactly the stream that eventually reaches the
destination sink.  The reader's `bufio.Reader` is modelled by the `input`
list (remaining source bytes): `ReadByte` pops the head, `Peek n` inspects
the first `n` elements and fails with EOF when fewer are available,
`Discard n` drops `n` elements, and `UnreadByte` restores the byte just
read.  Go runtime panics (out-of-range slice indexing, nil dereference) are
modelled as explicit `panic` errors / a `panicked` result.
-/

/-- Errors of the writer model: `config` is `ErrInvalidEscapeAndDelimiter`
(bytes.go line 15), `panic` is a Go runtime panic (out-of-range indexing
such as `dw.Escape[dw.index]` with `dw.index ≥ len(dw.Escape)`). -/
inductive WErr
  | config
  | panic
deriving Repr, DecidableEq

/-- State of `DelimitedStreamWriter` (bytes.go lines 32-74).  `buffer` is the
delimiter comparison buffer (allocated with capacity `Delimiter.length`),
`escape` the escape match buffer, `index` the escape match index, `count` the
atomic byte counter, and `out` the bytes written to the buffered output
stage (`dw.cache`), in order. -/
structure DelimitedStreamWriter where
  Swap : Nat
  Escape : List Nat
  Delimiter : List Nat
  index : Nat
  count : Nat
  buffer : List Nat
  escape : List Nat
  out : List Nat
deriving Repr, DecidableEq

/-- The effective swap byte: `init` (bytes.go lines 169-171) replaces a zero
`Swap` with the default `swap = '&'` (byte 38) before any flush can use it. -/
def DelimitedStreamWriter.effSwap (w : DelimitedStreamWriter) : Nat :=
  if w.Swap = 0 then 38 else w.Swap

/-- `DelimitedStreamWriter.flush` (bytes.go lines 279-321): compares the
buffered candidate with the delimiter, escaping it, swapping a dangling
first-delimiter-byte, or flushing the disproven candidate verbatim.
`dw.Delimiter[0]` is only evaluated (and can only panic) when the buffer
holds exactly one byte, matching Go's short-circuit evaluation. -/
def DelimitedStreamWriter.flush (w : DelimitedStreamWriter) :
    Except WErr DelimitedStreamWriter :=
  if w.buffer = w.Delimiter then
    .ok { w with out := w.out ++ w.Escape ++ w.Delimiter,
                 count := w.count + w.Escape.length, buffer := [] }
  else if w.buffer.length = 1 then
    match w.Delimiter.head? with
    | none => .error .panic
    | some d0 =>
      if w.buffer.head? = some d0 then
        .ok { w with out := w.out ++ w.Escape ++ [w.effSwap],
                     count := w.count + w.Escape.length, buffer := [] }
      else
        .ok { w with out := w.out ++ w.buffer,
                     count := w.count + w.buffer.length, buffer := [] }
  else
    .ok { w with out := w.out ++ w.buffer,
                 count := w.count + w.buffer.length, buffer := [] }

/-- The tail of `DelimitedStreamWriter.writeByte` (bytes.go lines 235-273):
the delimiter-candidate cases 4-6, reached when the escape cases do not
return.  The comparison buffer's capacity is `Delimiter.length` (set by
`init`, line 174), so `space = cap - len = Delimiter.length - buffer.length`;
when the buffer is non-empty and no space remains the byte falls through all
cases and is silently dropped, exactly as in the Go code. -/
def DelimitedStreamWriter.writeTail (w : DelimitedStreamWriter) (b : Nat) :
    Except WErr DelimitedStreamWriter :=
  if w.buffer = [] then
    match w.Delimiter.head? with
    | none => .error .panic
    | some d0 =>
      if b = d0 then
        .ok { w with count := w.count + 1, buffer := [b] }
      else
        .ok { w with count := w.count + 1, out := w.out ++ [b] }
  else
    let space := w.Delimiter.length - w.buffer.length
    if 0 < space then
      let w2 : DelimitedStreamWriter :=
        { w with count := w.count + 1, buffer := w.buffer ++ [b] }
      if space = 1 then w2.flush else .ok w2
    else
      .ok w

/-- `DelimitedStreamWriter.writeByte` (bytes.go lines 184-274).  `init`
(lines 151-179) is folded in: it only validates the configuration (returning
`ErrInvalidEscapeAndDelimiter` when `Escape = Delimiter`) and allocates the
buffers, which the model carries directly.  `dw.Escape[dw.index]` is
evaluated exactly where Go's short-circuiting conditions evaluate it, so the
model panics precisely where the Go code would. -/
def DelimitedStreamWriter.writeByte (w : DelimitedStreamWriter) (b : Nat) :
    Except WErr DelimitedStreamWriter :=
  if w.Escape = w.Delimiter then .error .config
  else if w.buffer = [] ∧ w.escape = [] then
    -- case 1 (lines 192-201)
    match w.Escape[w.index]? with
    | none => .error .panic
    | some e =>
      if b = e then
        .ok { w with index := w.index + 1, count := w.count + 1,
                     escape := w.escape ++ [b] }
      else w.writeTail b
  else if w.buffer = [] then
    -- cases 2 and 3 (lines 205-233); here `w.escape ≠ []`
    match w.Escape[w.index]? with
    | none => .error .panic
    | some e =>
      if b = e then
        let w2 : DelimitedStreamWriter :=
          { w with count := w.count + 1, index := w.index + 1,
                   escape := w.escape ++ [b] }
        if w2.escape.length = w2.Escape.length then
          .ok { w2 with out := w2.out ++ w2.escape, index := 0, escape := [] }
        else .ok w2
      else
        -- case 2: flush the partial escape match verbatim and fall through
        -- to the delimiter cases with the just-read byte.
        DelimitedStreamWriter.writeTail
          { w with out := w.out ++ w.escape, index := 0, escape := [] } b
  else w.writeTail b

/-- `DelimitedStreamWriter.Write` (bytes.go lines 140-149): per-byte loop.
Go additionally reports the number of bytes accepted before a failure; the
model returns only the failure, which is all the claims consult. -/
def DelimitedStreamWriter.Write (w : DelimitedStreamWriter) :
    List Nat → Except WErr DelimitedStreamWriter
  | [] => .ok w
  | b :: bs =>
    match w.writeByte b with
    | .error e => .error e
    | .ok w2 => w2.Write bs

/-- `DelimitedStreamWriter.End` (bytes.go lines 94-136): flush, append the
delimiter to the buffered output, and reset `index`, `buffer`, `escape` and
`count`.  The returned `Nat` is `written` (the counter after the flush plus
the delimiter length).  The `hasFlushed` bookkeeping only decides when the
buffered stage is pushed to the destination and does not change the byte
stream, so it is not modelled. -/
def DelimitedStreamWriter.End (w : DelimitedStreamWriter) :
    Except WErr (Nat × DelimitedStreamWriter) :=
  if w.Escape = w.Delimiter then .error .config
  else
    match w.flush with
    | .error e => .error e
    | .ok w1 =>
      .ok (w1.count + w1.Delimiter.length,
           { w1 with out := w1.out ++ w1.Delimiter,
                     index := 0, buffer := [], escape := [], count := 0 })

/-- Errors surfaced by `DelimitedStreamReader.readTill`: the configuration
error, `io.EOF` from the underlying buffered reader, and a Go panic. -/
inductive RTErr
  | config
  | eof
  | panic
deriving Repr, DecidableEq

/-- State of `DelimitedStreamReader` (bytes.go lines 341-385).  `cached` is
the decoded-output cache (`dr.cached`), `input` the bytes remaining in the
buffered source, `inited` whether the lazy `init` block (lines 459-483) has
run (`dr.cached`/`dr.buffer` non-nil). -/
structure DelimitedStreamReader where
  Swap : Nat
  Escape : List Nat
  Delimiter : List Nat
  index : Nat
  comparing : Bool
  unit : Bool
  keepRead : Bool
  inited : Bool
  cached : List Nat
  input : List Nat
deriving Repr, DecidableEq

/-- The body of `DelimitedStreamReader.readTill` after the lazy `init` block
(bytes.go lines 485-625).  Returns the updated state, an optional error and
the `bool` result.  Mutations made before an error (consumed bytes) are kept
in the returned state, as in Go. -/
def DelimitedStreamReader.readTillGo (r : DelimitedStreamReader) (space : Nat) :
    DelimitedStreamReader × Option RTErr × Bool :=
  let escapeLen := r.Escape.length
  let delimLen := r.Delimiter.length
  -- lines 488-490: out of reading space, let the cache drain.
  if space ≤ r.cached.length then (r, none, true)
  -- lines 496-552: a full escape match is resolved by peeking ahead.
  else if r.comparing ∧ escapeLen ≤ r.index then
    match r.input.head? with
    | none => (r, some .eof, false)   -- Peek(1) failed
    | some s0 =>
      if s0 = r.Swap then
        match r.Delimiter.head? with
        | none => (r, some .panic, false)   -- dr.Delimiter[0] on empty delimiter
        | some d0 =>
          ({ r with input := r.input.drop 1, index := 0, comparing := false,
                    cached := r.cached ++ [d0] }, none, false)
      else if r.input.length < delimLen then
        (r, some .eof, false)   -- Peek(delimLen) failed
      else if r.input.take delimLen = r.Delimiter then
        ({ r with index := 0, comparing := false,
                  cached := r.cached ++ r.input.take delimLen,
                  input := r.input.drop delimLen }, none, false)
      else
        ({ r with index := 0, comparing := false,
                  cached := r.cached ++ r.Escape }, none, false)
  else
    -- line 554: ReadByte
    match r.input with
    | [] => (r, some .eof, false)
    | bm :: rest =>
      if r.comparing then
        -- lines 595-622
        match r.Escape[r.index]? with
        | none => (r, some .panic, false)
        | some e =>
          if bm = e then
            ({ r with input := rest, index := r.index + 1 }, none, false)
          else
            -- partial escape match disproven: emit the part, unread `bm`.
            let part := if 1 < r.index then r.Escape.take (r.index - 1)
                        else r.Escape.take r.index
            ({ r with index := 0, comparing := false,
                      cached := r.cached ++ part }, none, false)
      else
        -- lines 561-591
        match r.Escape[r.index]? with
        | none => (r, some .panic, false)
        | some e =>
          if bm = e then
            ({ r with input := rest, index := r.index + 1, comparing := true },
             none, false)
          else
            match r.Delimiter.head? with
            | none => (r, some .panic, false)   -- dr.Delimiter[0]
            | some d0 =>
              if bm = d0 then
                if rest.length < delimLen - 1 then
                  ({ r with input := rest }, some .eof, false)   -- Peek failed
                else if rest.take (delimLen - 1) = r.Delimiter.drop 1 then
                  ({ r with input := rest.drop (delimLen - 1), unit := true },
                   none, true)
                else
                  ({ r with input := rest, cached := r.cached ++ [bm] },
                   none, false)
              else
                ({ r with input := rest, cached := r.cached ++ [bm] },
                 none, false)

/-- `DelimitedStreamReader.readTill` (bytes.go lines 455-625): the lazy
`init` block validates the configuration on first use (before allocating
`dr.cached`/`dr.buffer`) and defaults a zero `Swap` to `'&'` (38); the
buffer-size arithmetic only tunes `bufio` capacities and never changes the
byte stream. -/
def DelimitedStreamReader.readTill (r : DelimitedStreamReader) (space : Nat) :
    DelimitedStreamReader × Option RTErr × Bool :=
  if r.inited then r.readTillGo space
  else if r.Escape = r.Delimiter then (r, some .config, false)
  else
    (({ r with inited := true,
               Swap := if r.Swap = 0 then 38 else r.Swap } :
       DelimitedStreamReader)).readTillGo space

/-- Errors returned by `DelimitedStreamReader.Read`: `eos` is the `ErrEOS`
unit-boundary sentinel (bytes.go line 333), `eof` is `io.EOF` from the
source (also produced by `bytes.Buffer.Read` on an empty cache). -/
inductive RdErr
  | eos
  | eof
deriving Repr, DecidableEq

/-- Result of a `Read` call: the bytes delivered into the caller's buffer,
the returned error (if any) and the final reader state; `panicked` models a
Go runtime panic, `nofuel` is exhaustion of the model's step budget (the Go
loop has no such bound). -/
inductive ReadRes
  | out (delivered : List Nat) (err : Option RdErr) (st : DelimitedStreamReader)
  | panicked
  | nofuel
deriving Repr, DecidableEq

/-- `DelimitedStreamReader.Read` (bytes.go lines 390-453), with an explicit
fuel for the unbounded Go `for` loop.  `blen` is the free space left in the
caller's buffer `b`, `acc` the bytes already delivered.  `bytes.Buffer.Read`
on the cache returns `io.EOF` when the cache is empty and the destination
slice is non-empty.  When `readTill` reports the configuration error the
reader was never initialised, so `dr.cached` is nil and the
`dr.cached.Len() > 0` check on line 436 dereferences a nil pointer: a panic,
not an error return. -/
def DelimitedStreamReader.Read :
    Nat → DelimitedStreamReader → Nat → List Nat → ReadRes
  | 0, _, _, _ => .nofuel
  | fuel + 1, r, blen, acc =>
    if r.keepRead then
      let r1 := if r.cached = [] then { r with keepRead := false } else r
      if r1.cached = [] ∧ 0 < blen then .out acc (some .eof) r1
      else
        let n := min r1.cached.length blen
        let acc2 := acc ++ r1.cached.take n
        let r2 : DelimitedStreamReader := { r1 with cached := r1.cached.drop n }
        if r2.cached = [] then
          let r3 : DelimitedStreamReader := { r2 with keepRead := false }
          if r3.unit then .out acc2 (some .eos) { r3 with unit := false }
          else if n = blen then .out acc2 none r3
          else DelimitedStreamReader.Read fuel r3 (blen - n) acc2
        else
          if n = blen then .out acc2 none r2
          else DelimitedStreamReader.Read fuel r2 (blen - n) acc2
    else
      match r.readTill blen with
      | (_, some .panic, _) => .panicked
      | (_, some .config, _) => .panicked   -- nil `dr.cached` dereference
      | (r1, some .eof, _) =>
        if r1.cached = [] then .out acc (some .eof) r1
        else
          let n := min r1.cached.length blen
          .out (acc ++ r1.cached.take n) (some .eof)
            { r1 with cached := r1.cached.drop n }
      | (r1, none, true) =>
        DelimitedStreamReader.Read fuel { r1 with keepRead := true } blen acc
      | (r1, none, false) => DelimitedStreamReader.Read fuel r1 blen acc

/-- A fresh `DelimitedStreamWriter` with the given configuration, before any
operation has run. -/
def initW (esc delim : List Nat) (sw : Nat) : DelimitedStreamWriter :=
  { Swap := sw, Escape := esc, Delimiter := delim, index := 0, count := 0,
    buffer := [], escape := [], out := [] }

/-- A fresh `DelimitedStreamReader` over source `src`, before any operation
has run. -/
def initR (esc delim : List Nat) (sw : Nat) (src : List Nat) :
    DelimitedStreamReader :=
  { Swap := sw, Escape := esc, Delimiter := delim, index := 0,
    comparing := false, unit := false, keepRead := false, inited := false,
    cached := [], input := src }

/-- A reader that has already run its lazy `init` (scanning state, empty
cache), as it is between units. -/
def runningR (esc delim : List Nat) (sw : Nat) (src : List Nat) :
    DelimitedStreamReader :=
  { Swap := sw, Escape := esc, Delimiter := delim, index := 0,
    comparing := false, unit := false, keepRead := false, inited := true,
    cached := [], input := src }

/-- The encoded stream produced by writing payload `P` to a fresh writer and
calling `End()`: the bytes handed to the destination sink.  `none` when an
operation fails or panics. -/
def encodeUnitOut (esc delim : List Nat) (sw : Nat) (P : List Nat) :
    Option (List Nat) :=
  match (initW esc delim sw).Write P with
  | .error _ => none
  | .ok w =>
    match w.End with
    | .error _ => none
    | .ok (_, w2) => some w2.out

/-- Writing several payloads to one writer, each closed with `End()`. -/
def DelimitedStreamWriter.WriteUnits (w : DelimitedStreamWriter) :
    List (List Nat) → Except WErr DelimitedStreamWriter
  | [] => .ok w
  | P :: Ps =>
    match w.Write P with
    | .error e => .error e
    | .ok w1 =>
      match w1.End with
      | .error e => .error e
      | .ok (_, w2) => w2.WriteUnits Ps

/-- The sink contents after writing a list of units through one writer. -/
def encodeUnitsOut (esc delim : List Nat) (sw : Nat) (Ps : List (List Nat)) :
    Option (List Nat) :=
  match (initW esc delim sw).WriteUnits Ps with
  | .error _ => none
  | .ok w => some w.out

/-- One `Read` call on a fresh reader over source `src`, with a caller
buffer of size `blen`. -/
def decodeRead (esc delim : List Nat) (sw : Nat) (src : List Nat)
    (fuel blen : Nat) : ReadRes :=
  DelimitedStreamReader.Read fuel (initR esc delim sw src) blen []

/-- Error of the byte lexer: `io.EOF` (`EndOfBuffer`). -/
inductive LexErr
  | eof
deriving Repr, DecidableEq

/-- `ByteLexer` (lexer.go lines 6-14).  `p` is the cursor (`-1` before any
advance), `lx` the last index (`len - 1`), `ln` the length, `lp` the mark.
Go slice capacity is modelled as the length. -/
structure ByteLexer where
  buf : List Nat
  err : Option LexErr
  cp : Int
  ln : Int
  lx : Int
  p : Int
  lp : Int
deriving Repr, DecidableEq

/-- `NewByteLexer` (lexer.go lines 17-25). -/
def NewByteLexer (b : List Nat) : ByteLexer :=
  { buf := b, err := none, cp := (b.length : Int), ln := (b.length : Int),
    lx := (b.length : Int) - 1, p := -1, lp := 0 }

/-- `ByteLexer.Index` (lexer.go lines 28-33): the zero byte at the sentinel
position `-1`, otherwise `bl.buf[bl.p]`; `none` models the Go panic when the
cursor is outside `[0, len)` and not `-1`. -/
def ByteLexer.Index (bl : ByteLexer) : Option Nat :=
  if bl.p = -1 then some 0
  else if 0 ≤ bl.p then bl.buf[bl.p.toNat]?
  else none

/-- `ByteLexer.Move` (lexer.go lines 80-92): no-op in a failed state;
otherwise advance by `n`, clamping to `lx` and recording `io.EOF` when
`p + n ≥ lx`. -/
def ByteLexer.Move (bl : ByteLexer) (n : Int) : ByteLexer :=
  if bl.err ≠ none then bl
  else
    let nxt := bl.p + n
    if bl.lx ≤ nxt then { bl with p := bl.lx, err := some .eof }
    else { bl with p := nxt }

/-- `ByteLexer.Next` (lexer.go lines 96-104): single-step advance bounded by
`ln`; note that unlike `Move` it does not check a prior failure. -/
def ByteLexer.Next (bl : ByteLexer) : ByteLexer × Option LexErr :=
  let nxt := bl.p + 1
  if bl.ln ≤ nxt then ({ bl with err := some .eof }, some .eof)
  else ({ bl with p := nxt }, none)

/-- The state invariant maintained by `NewByteLexer` and all forward
advances: the length fields agree with the buffer and the cursor lies
between the sentinel `-1` and the last index. -/
def ByteLexer.Inv (bl : ByteLexer) : Prop :=
  bl.ln = (bl.buf.length : Int) ∧ bl.lx = (bl.buf.length : Int) - 1 ∧
    -1 ≤ bl.p ∧ bl.p ≤ bl.lx

instance (bl : ByteLexer) : Decidable bl.Inv := by
  unfold ByteLexer.Inv; infer_instance

/-! ### List helpers -/

theorem getElemOfDrop (l : List Nat) (j s : Nat) (t : List Nat)
    (h : l.drop j = s :: t) : l[j]? = some s := by
  have h2 := List.getElem?_drop l j 0
  rw [h] at h2
  simpa using h2.symm

theorem dropSuccOfDrop (l : List Nat) (j s : Nat) (t : List Nat)
    (h : l.drop j = s :: t) : l.drop (j + 1) = t := by
  have h2 : (l.drop j).drop 1 = t := by rw [h]; rfl
  rwa [List.drop_drop] at h2

theorem takeSuccOfDrop (l : List Nat) (j s : Nat) (t : List Nat)
    (h : l.drop j = s :: t) : l.take (j + 1) = l.take j ++ [s] := by
  induction l generalizing j with
  | nil => simp at h
  | cons a l ih =>
    cases j with
    | zero => simp at h; simp [h.1]
    | succ j =>
      simp only [List.drop_succ_cons] at h
      simp [List.take_succ_cons, ih j h]

/-! ### Writer lemmas -/

/-- A byte that matches neither `Escape[0]` nor `Delimiter[0]` passes through
a writer in clean state verbatim. -/
theorem writeByte_clean (Sw e0 d0 : Nat) (etl dtl : List Nat) (c : Nat)
    (o : List Nat) (b : Nat) (hne : (e0 :: etl) ≠ (d0 :: dtl))
    (hbe : b ≠ e0) (hbd : b ≠ d0) :
    (DelimitedStreamWriter.mk Sw (e0 :: etl) (d0 :: dtl) 0 c [] [] o).writeByte b
      = .ok (DelimitedStreamWriter.mk Sw (e0 :: etl) (d0 :: dtl) 0 (c + 1) [] []
          (o ++ [b])) := by
  simp [DelimitedStreamWriter.writeByte, DelimitedStreamWriter.writeTail,
    hne, hbe, hbd]

/-- A clean-byte payload passes through a clean-state writer verbatim. -/
theorem write_clean (Sw e0 d0 : Nat) (etl dtl : List Nat) :
    ∀ (P : List Nat) (c : Nat) (o : List Nat),
    (e0 :: etl) ≠ (d0 :: dtl) → (∀ b ∈ P, b ≠ e0 ∧ b ≠ d0) →
    (DelimitedStreamWriter.mk Sw (e0 :: etl) (d0 :: dtl) 0 c [] [] o).Write P
      = .ok (DelimitedStreamWriter.mk Sw (e0 :: etl) (d0 :: dtl) 0
          (c + P.length) [] [] (o ++ P)) := by
  intro P
  induction P with
  | nil => intro c o hne _; simp [DelimitedStreamWriter.Write]
  | cons b P ih =>
    intro c o hne hP
    have hb := hP b (by simp)
    have hPr : ∀ x ∈ P, x ≠ e0 ∧ x ≠ d0 := fun x hx => hP x (by simp [hx])
    simp only [DelimitedStreamWriter.Write,
      writeByte_clean Sw e0 d0 etl dtl c o b hne hb.1 hb.2]
    rw [ih (c + 1) (o ++ [b]) hne hPr]
    simp only [List.append_assoc, List.singleton_append, List.length_cons]
    have : c + 1 + P.length = c + (P.length + 1) := by omega
    rw [this]

/-- `End()` on a writer in clean state appends exactly the delimiter. -/
theorem end_clean (Sw e0 d0 : Nat) (etl dtl : List Nat) (c : Nat)
    (o : List Nat) (hne : (e0 :: etl) ≠ (d0 :: dtl)) :
    (DelimitedStreamWriter.mk Sw (e0 :: etl) (d0 :: dtl) 0 c [] [] o).End
      = .ok (c + (d0 :: dtl).length,
          DelimitedStreamWriter.mk Sw (e0 :: etl) (d0 :: dtl) 0 0 [] []
            (o ++ (d0 :: dtl))) := by
  simp [DelimitedStreamWriter.End, DelimitedStreamWriter.flush, hne]

/-- Writing `Delimiter[0]` from clean state starts the comparison buffer. -/
theorem writeByte_delimHead (Sw e0 d0 : Nat) (etl dtl : List Nat) (c : Nat)
    (o : List Nat) (hne : (e0 :: etl) ≠ (d0 :: dtl)) (hed : d0 ≠ e0) :
    (DelimitedStreamWriter.mk Sw (e0 :: etl) (d0 :: dtl) 0 c [] [] o).writeByte d0
      = .ok (DelimitedStreamWriter.mk Sw (e0 :: etl) (d0 :: dtl) 0 (c + 1)
          [d0] [] o) := by
  simp [DelimitedStreamWriter.writeByte, DelimitedStreamWriter.writeTail,
    hne, hed]

/-- `End()` with a single dangling `Delimiter[0]` in the comparison buffer
writes `Escape ++ [Swap]` and then the delimiter (delimiter length ≥ 2). -/
theorem end_buffered_d0 (Sw e0 d0 : Nat) (etl dtl : List Nat) (c : Nat)
    (o : List Nat) (hne : (e0 :: etl) ≠ (d0 :: dtl)) (hdtl : dtl ≠ []) :
    (DelimitedStreamWriter.mk Sw (e0 :: etl) (d0 :: dtl) 0 c [d0] [] o).End
      = .ok (c + (e0 :: etl).length + (d0 :: dtl).length,
          DelimitedStreamWriter.mk Sw (e0 :: etl) (d0 :: dtl) 0 0 [] []
            (o ++ (e0 :: etl) ++
              [(DelimitedStreamWriter.mk Sw (e0 :: etl) (d0 :: dtl) 0 c [d0]
                 [] o).effSwap] ++ (d0 :: dtl))) := by
  have hbd : [d0] ≠ (d0 :: dtl) := by simp [Ne.symm hdtl]
  simp [DelimitedStreamWriter.End, DelimitedStreamWriter.flush, hne, hbd]

/-- Accumulating the remainder of a literal escape occurrence: from match
index `j` (comparison buffer empty, escape buffer holding `Escape.take j`),
writing the remaining escape bytes flushes the full escape verbatim. -/
theorem write_escape_aux (Sw e0 d0 : Nat) (etl dtl : List Nat)
    (hne : (e0 :: etl) ≠ (d0 :: dtl)) :
    ∀ (suf : List Nat) (j cj : Nat) (o : List Nat), 0 < j →
    j < (e0 :: etl).length → j + suf.length = (e0 :: etl).length →
    (e0 :: etl).drop j = suf →
    (DelimitedStreamWriter.mk Sw (e0 :: etl) (d0 :: dtl) j cj []
        ((e0 :: etl).take j) o).Write suf
      = .ok (DelimitedStreamWriter.mk Sw (e0 :: etl) (d0 :: dtl) 0
          (cj + suf.length) [] [] (o ++ (e0 :: etl))) := by
  intro suf
  induction suf with
  | nil =>
    intro j cj o hj hjlt hlen _
    have hL1 : (e0 :: etl).length = etl.length + 1 := by simp
    simp at hlen
    omega
  | cons s suf ih =>
    intro j cj o hj hjlt hlen hdrop
    have hL1 : (e0 :: etl).length = etl.length + 1 := by simp
    have hL2 : (s :: suf).length = suf.length + 1 := by simp
    have hget : (e0 :: etl)[j]? = some s := getElemOfDrop _ j s suf hdrop
    have htapne : (e0 :: etl).take j ≠ [] := by
      intro hc
      have h2 : ((e0 :: etl).take j).length = j := by
        rw [List.length_take]; omega
      rw [hc] at h2
      simp at h2
      omega
    have htake1 : (e0 :: etl).take j ++ [s] = (e0 :: etl).take (j + 1) :=
      (takeSuccOfDrop _ j s suf hdrop).symm
    have hlt : ((e0 :: etl).take (j + 1)).length = j + 1 := by
      rw [List.length_take]
      omega
    by_cases hfull : j + 1 = (e0 :: etl).length
    · have hsuf : suf = [] := by
        have h3 : suf.length = 0 := by
          simp only [List.length_cons] at hlen; omega
        exact List.length_eq_zero.mp h3
      subst hsuf
      have hstep : (DelimitedStreamWriter.mk Sw (e0 :: etl) (d0 :: dtl) j cj []
          ((e0 :: etl).take j) o).writeByte s
          = .ok (DelimitedStreamWriter.mk Sw (e0 :: etl) (d0 :: dtl) 0 (cj + 1)
              [] [] (o ++ (e0 :: etl))) := by
        simp only [DelimitedStreamWriter.writeByte, if_neg hne, htapne,
          and_false, if_false, if_pos rfl, hget]
        simp only [htake1, hlt, if_pos rfl, hfull, List.take_length]
        simp only [if_true]
      simp only [DelimitedStreamWriter.Write, hstep]
      simp
    · have hstep : (DelimitedStreamWriter.mk Sw (e0 :: etl) (d0 :: dtl) j cj []
          ((e0 :: etl).take j) o).writeByte s
          = .ok (DelimitedStreamWriter.mk Sw (e0 :: etl) (d0 :: dtl) (j + 1)
              (cj + 1) [] ((e0 :: etl).take (j + 1)) o) := by
        simp only [DelimitedStreamWriter.writeByte, if_neg hne, htapne,
          and_false, if_false, if_pos rfl, hget]
        simp only [htake1, hlt, if_neg hfull]
        simp only [if_true]
      simp only [DelimitedStreamWriter.Write, hstep]
      have hdrop2 : (e0 :: etl).drop (j + 1) = suf :=
        dropSuccOfDrop _ j s suf hdrop
      rw [ih (j + 1) (cj + 1) o (by omega) (by omega) (by omega) hdrop2]
      have hcnt : cj + 1 + suf.length = cj + (s :: suf).length := by
        simp only [List.length_cons]; omega
      rw [hcnt]

theorem write_escape_full (Sw e0 d0 : Nat) (etl dtl : List Nat) (c : Nat)
    (o : List Nat) (hne : (e0 :: etl) ≠ (d0 :: dtl)) (hetl : etl ≠ []) :
    (DelimitedStreamWriter.mk Sw (e0 :: etl) (d0 :: dtl) 0 c [] [] o).Write
        (e0 :: etl)
      = .ok (DelimitedStreamWriter.mk Sw (e0 :: etl) (d0 :: dtl) 0
          (c + (e0 :: etl).length) [] [] (o ++ (e0 :: etl))) := by
  have hlen1 : 1 < (e0 :: etl).length := by
    cases etl with
    | nil => exact absurd rfl hetl
    | cons a t => simp
  have step1 : (DelimitedStreamWriter.mk Sw (e0 :: etl) (d0 :: dtl) 0 c [] []
      o).writeByte e0
      = .ok (DelimitedStreamWriter.mk Sw (e0 :: etl) (d0 :: dtl) 1 (c + 1) []
          [e0] o) := by
    simp [DelimitedStreamWriter.writeByte, hne]
  simp only [DelimitedStreamWriter.Write, step1]
  have h1 : (DelimitedStreamWriter.mk Sw (e0 :: etl) (d0 :: dtl) 1 (c + 1) []
      [e0] o)
    = DelimitedStreamWriter.mk Sw (e0 :: etl) (d0 :: dtl) 1 (c + 1) []
        ((e0 :: etl).take 1) o := by simp
  rw [h1, write_escape_aux Sw e0 d0 etl dtl hne etl 1 (c + 1) o (by omega)
    hlen1 (by simp only [List.length_cons]; omega) (by simp)]
  simp only [List.length_cons]
  have h2 : c + 1 + etl.length = c + (etl.length + 1) := by omega
  rw [h2]

/-! ### Reader step lemmas -/

/-- Scanning a byte that matches neither `Escape[0]` nor `Delimiter[0]`
caches it verbatim. -/
theorem readTillGo_scan_step (Sw e0 d0 : Nat) (etl dtl : List Nat)
    (u kr : Bool) (C inp : List Nat) (b : Nat) (blen : Nat)
    (hC : C.length < blen) (hbe : b ≠ e0) (hbd : b ≠ d0) :
    (DelimitedStreamReader.mk Sw (e0 :: etl) (d0 :: dtl) 0 false u kr true C
        (b :: inp)).readTillGo blen
      = (DelimitedStreamReader.mk Sw (e0 :: etl) (d0 :: dtl) 0 false u kr true
          (C ++ [b]) inp, none, false) := by
  simp [DelimitedStreamReader.readTillGo, Nat.not_le.mpr hC, hbe, hbd]

/-- Scanning `Delimiter[0]` with the full delimiter ahead consumes it and
signals a unit boundary. -/
theorem readTillGo_boundary (Sw e0 d0 : Nat) (etl dtl : List Nat)
    (u kr : Bool) (C rest : List Nat) (blen : Nat)
    (hC : C.length < blen) (hde : d0 ≠ e0) :
    (DelimitedStreamReader.mk Sw (e0 :: etl) (d0 :: dtl) 0 false u kr true C
        (d0 :: (dtl ++ rest))).readTillGo blen
      = (DelimitedStreamReader.mk Sw (e0 :: etl) (d0 :: dtl) 0 false true kr
          true C rest, none, true) := by
  simp only [DelimitedStreamReader.readTillGo, Nat.not_le.mpr hC]
  simp [hde, List.take_left, List.drop_left]

/-- Scanning `Escape[0]` enters the escape-comparing state. -/
theorem readTillGo_escape_enter (Sw e0 d0 : Nat) (etl dtl : List Nat)
    (u kr : Bool) (C inp : List Nat) (blen : Nat) (hC : C.length < blen) :
    (DelimitedStreamReader.mk Sw (e0 :: etl) (d0 :: dtl) 0 false u kr true C
        (e0 :: inp)).readTillGo blen
      = (DelimitedStreamReader.mk Sw (e0 :: etl) (d0 :: dtl) 1 true u kr true
          C inp, none, false) := by
  simp [DelimitedStreamReader.readTillGo, Nat.not_le.mpr hC]

/-- While comparing, a byte that continues the escape sequence advances the
match index. -/
theorem readTillGo_escape_cont (Sw e0 d0 : Nat) (etl dtl : List Nat)
    (u kr : Bool) (C inp : List Nat) (j : Nat) (s : Nat) (blen : Nat)
    (hC : C.length < blen) (hj : j < (e0 :: etl).length)
    (hget : (e0 :: etl)[j]? = some s) :
    (DelimitedStreamReader.mk Sw (e0 :: etl) (d0 :: dtl) j true u kr true C
        (s :: inp)).readTillGo blen
      = (DelimitedStreamReader.mk Sw (e0 :: etl) (d0 :: dtl) (j + 1) true u kr
          true C inp, none, false) := by
  have hj2 : ¬ ((e0 :: etl).length ≤ j) := Nat.not_le.mpr hj
  simp only [List.length_cons] at hj2
  simp [DelimitedStreamReader.readTillGo, Nat.not_le.mpr hC, hj2, hget]

/-- A completed escape match followed by the swap byte is decoded to
`Delimiter[0]`. -/
theorem readTillGo_swap_resolve (Sw e0 d0 : Nat) (etl dtl : List Nat)
    (u kr : Bool) (C inp : List Nat) (blen : Nat) (hC : C.length < blen) :
    (DelimitedStreamReader.mk Sw (e0 :: etl) (d0 :: dtl) (e0 :: etl).length
        true u kr true C (Sw :: inp)).readTillGo blen
      = (DelimitedStreamReader.mk Sw (e0 :: etl) (d0 :: dtl) 0 false u kr true
          (C ++ [d0]) inp, none, false) := by
  simp [DelimitedStreamReader.readTillGo, Nat.not_le.mpr hC]

/-- A completed escape match followed by neither the swap byte nor the
delimiter replays the escape bytes verbatim and consumes nothing. -/
theorem readTillGo_escape_false_pos (Sw e0 d0 : Nat) (etl dtl : List Nat)
    (u kr : Bool) (C inp : List Nat) (c : Nat) (blen : Nat)
    (hC : C.length < blen) (hcsw : c ≠ Sw) (hcd : c ≠ d0)
    (hlen : dtl.length ≤ inp.length) :
    (DelimitedStreamReader.mk Sw (e0 :: etl) (d0 :: dtl) (e0 :: etl).length
        true u kr true C (c :: inp)).readTillGo blen
      = (DelimitedStreamReader.mk Sw (e0 :: etl) (d0 :: dtl) 0 false u kr true
          (C ++ (e0 :: etl)) (c :: inp), none, false) := by
  have hlen2 : ¬ ((c :: inp).length < (d0 :: dtl).length) := by
    simp only [List.length_cons]; omega
  have htk : ¬ ((c :: inp).take (d0 :: dtl).length = (d0 :: dtl)) := by
    simp only [List.length_cons, List.take_succ_cons]
    simp [hcd]
  simp [DelimitedStreamReader.readTillGo, Nat.not_le.mpr hC, hcsw, hlen2, htk,
    Nat.not_lt.mpr hlen, hcd]

/-! ### Read-loop lemmas -/

/-- `readTill` on an initialised reader is `readTillGo`. -/
theorem readTill_inited (Sw : Nat) (E D : List Nat) (idx : Nat)
    (cmp u kr : Bool) (C inp : List Nat) (space : Nat) :
    (DelimitedStreamReader.mk Sw E D idx cmp u kr true C inp).readTill space
      = (DelimitedStreamReader.mk Sw E D idx cmp u kr true C inp).readTillGo
          space := by
  simp [DelimitedStreamReader.readTill]

/-- One `Read` iteration over a `readTill` step that reports no error and no
boundary. -/
theorem Read_step_false (k : Nat) (r r1 : DelimitedStreamReader)
    (blen : Nat) (acc : List Nat) (hkr : r.keepRead = false)
    (h : r.readTill blen = (r1, none, false)) :
    DelimitedStreamReader.Read (k + 1) r blen acc
      = DelimitedStreamReader.Read k r1 blen acc := by
  simp [DelimitedStreamReader.Read, hkr, h]

/-- One `Read` iteration over a `readTill` step that reports a boundary. -/
theorem Read_step_true (k : Nat) (r r1 : DelimitedStreamReader)
    (blen : Nat) (acc : List Nat) (hkr : r.keepRead = false)
    (h : r.readTill blen = (r1, none, true)) :
    DelimitedStreamReader.Read (k + 1) r blen acc
      = DelimitedStreamReader.Read k { r1 with keepRead := true } blen acc := by
  simp [DelimitedStreamReader.Read, hkr, h]

/-- Two non-`keepRead` readers whose `readTill` steps agree take the same
`Read` iteration. -/
theorem Read_congr_readTill (k : Nat) (r r2 : DelimitedStreamReader)
    (blen : Nat) (acc : List Nat) (h1 : r.keepRead = false)
    (h2 : r2.keepRead = false)
    (h : r.readTill blen = r2.readTill blen) :
    DelimitedStreamReader.Read (k + 1) r blen acc
      = DelimitedStreamReader.Read (k + 1) r2 blen acc := by
  conv_lhs => rw [DelimitedStreamReader.Read.eq_2]
  conv_rhs => rw [DelimitedStreamReader.Read.eq_2]
  simp only [h1, h2, Bool.false_eq_true, if_false]
  rw [h]

/-- The first `Read` iteration initialises the reader: with a valid
configuration it behaves like the already-initialised reader (with the zero
`Swap` defaulted). -/
theorem Read_init (k : Nat) (Sw : Nat) (E D : List Nat) (src : List Nat)
    (blen : Nat) (acc : List Nat) (hne : E ≠ D) :
    DelimitedStreamReader.Read (k + 1) (initR E D Sw src) blen acc
      = DelimitedStreamReader.Read (k + 1)
          (DelimitedStreamReader.mk (if Sw = 0 then 38 else Sw) E D 0 false
            false false true [] src) blen acc := by
  apply Read_congr_readTill
  · rfl
  · rfl
  · simp [DelimitedStreamReader.readTill, initR, hne]

/-- Draining the cache after a boundary: everything cached is delivered and
the `ErrEOS` sentinel is returned. -/
theorem Read_drain (k : Nat) (Sw : Nat) (E D : List Nat) (idx : Nat)
    (cmp : Bool) (C inp acc : List Nat) (blen : Nat)
    (hCne : C ≠ []) (hC : C.length ≤ blen) :
    DelimitedStreamReader.Read (k + 1)
        (DelimitedStreamReader.mk Sw E D idx cmp true true true C inp) blen acc
      = .out (acc ++ C) (some .eos)
          (DelimitedStreamReader.mk Sw E D idx cmp false false true [] inp) := by
  have hmin : min C.length blen = C.length := Nat.min_eq_left hC
  simp [DelimitedStreamReader.Read, hCne, hmin, List.take_length,
    List.drop_length]

/-- Scanning a clean payload segment `Q` (no `Escape[0]`, no `Delimiter[0]`
bytes) caches it verbatim, consuming one fuel per byte. -/
theorem Read_scan (Sw e0 d0 : Nat) (etl dtl : List Nat) :
    ∀ (Q : List Nat) (k : Nat) (C inp acc : List Nat) (blen : Nat),
    (∀ b ∈ Q, b ≠ e0 ∧ b ≠ d0) → C.length + Q.length < blen →
    DelimitedStreamReader.Read (Q.length + k)
        (DelimitedStreamReader.mk Sw (e0 :: etl) (d0 :: dtl) 0 false false
          false true C (Q ++ inp)) blen acc
      = DelimitedStreamReader.Read k
          (DelimitedStreamReader.mk Sw (e0 :: etl) (d0 :: dtl) 0 false false
            false true (C ++ Q) inp) blen acc := by
  intro Q
  induction Q with
  | nil => intro k C inp acc blen _ _; simp
  | cons b Q ih =>
    intro k C inp acc blen hQ hblen
    have hb := hQ b (by simp)
    have hQr : ∀ x ∈ Q, x ≠ e0 ∧ x ≠ d0 := fun x hx => hQ x (by simp [hx])
    have hC : C.length < blen := by
      simp only [List.length_cons] at hblen; omega
    have hstep := readTillGo_scan_step Sw e0 d0 etl dtl false false C
      (Q ++ inp) b blen hC hb.1 hb.2
    have hlen : (b :: Q).length + k = (Q.length + k) + 1 := by
      simp only [List.length_cons]; omega
    rw [hlen, List.cons_append,
      Read_step_false (Q.length + k) _ _ blen acc rfl
        ((readTill_inited Sw (e0 :: etl) (d0 :: dtl) 0 false false false C
          (b :: (Q ++ inp)) blen).trans hstep)]
    have hCb : C.length + 1 ≤ (C ++ [b]).length := by simp
    rw [ih k (C ++ [b]) inp acc blen hQr ?hlen2]
    case hlen2 =>
      simp only [List.length_append, List.length_cons, List.length_nil] at hblen ⊢
      omega
    simp

/-- Finding the delimiter and draining the cache: the cached unit is
delivered followed by the `ErrEOS` sentinel. -/
theorem Read_finish (Sw e0 d0 : Nat) (etl dtl : List Nat) (k : Nat)
    (C rest acc : List Nat) (blen : Nat) (hCne : C ≠ [])
    (hC : C.length < blen) (hde : d0 ≠ e0) :
    DelimitedStreamReader.Read (k + 2)
        (DelimitedStreamReader.mk Sw (e0 :: etl) (d0 :: dtl) 0 false false
          false true C (d0 :: dtl ++ rest)) blen acc
      = .out (acc ++ C) (some .eos)
          (DelimitedStreamReader.mk Sw (e0 :: etl) (d0 :: dtl) 0 false false
            false true [] rest) := by
  have h1 := readTillGo_boundary Sw e0 d0 etl dtl false false C rest blen hC
    hde
  have h2 : k + 2 = (k + 1) + 1 := by omega
  rw [h2, List.cons_append, Read_step_true (k + 1) _ _ blen acc rfl
    ((readTill_inited Sw (e0 :: etl) (d0 :: dtl) 0 false false false C
      (d0 :: (dtl ++ rest)) blen).trans h1)]
  have h3 : ({ DelimitedStreamReader.mk Sw (e0 :: etl) (d0 :: dtl) 0 false
      true false true C rest with keepRead := true })
      = DelimitedStreamReader.mk Sw (e0 :: etl) (d0 :: dtl) 0 false true true
          true C rest := rfl
  rw [h3]
  exact Read_drain k Sw (e0 :: etl) (d0 :: dtl) 0 false C rest acc blen hCne
    (Nat.le_of_lt hC)

/-- Reading one full unit: a clean non-empty payload followed by the
delimiter is delivered exactly, then the `ErrEOS` sentinel. -/
theorem Read_unit (Sw e0 d0 : Nat) (etl dtl : List Nat) (Q : List Nat)
    (k : Nat) (rest acc : List Nat) (blen : Nat)
    (hQ : ∀ b ∈ Q, b ≠ e0 ∧ b ≠ d0) (hQne : Q ≠ [])
    (hblen : Q.length < blen) (hde : d0 ≠ e0) :
    DelimitedStreamReader.Read (Q.length + (k + 2))
        (DelimitedStreamReader.mk Sw (e0 :: etl) (d0 :: dtl) 0 false false
          false true [] (Q ++ ((d0 :: dtl) ++ rest))) blen acc
      = .out (acc ++ Q) (some .eos)
          (DelimitedStreamReader.mk Sw (e0 :: etl) (d0 :: dtl) 0 false false
            false true [] rest) := by
  rw [Read_scan Sw e0 d0 etl dtl Q (k + 2) [] ((d0 :: dtl) ++ rest) acc blen
    hQ (by simpa using hblen)]
  simp only [List.nil_append]
  exact Read_finish Sw e0 d0 etl dtl k Q rest acc blen hQne hblen hde

/-- Matching the tail of the escape sequence byte by byte from match index
`j`, reaching the full-match state. -/
theorem Read_escape_tail (Sw e0 d0 : Nat) (etl dtl : List Nat) :
    ∀ (suf : List Nat) (j k : Nat) (C inp acc : List Nat) (blen : Nat),
    C.length < blen → 0 < j → j + suf.length = (e0 :: etl).length →
    (e0 :: etl).drop j = suf →
    DelimitedStreamReader.Read (suf.length + k)
        (DelimitedStreamReader.mk Sw (e0 :: etl) (d0 :: dtl) j true false
          false true C (suf ++ inp)) blen acc
      = DelimitedStreamReader.Read k
          (DelimitedStreamReader.mk Sw (e0 :: etl) (d0 :: dtl)
            (e0 :: etl).length true false false true C inp) blen acc := by
  intro suf
  induction suf with
  | nil =>
    intro j k C inp acc blen _ _ hlen _
    simp only [List.length_nil, Nat.zero_add, List.nil_append]
    have hj : j = (e0 :: etl).length := by simpa using hlen
    rw [hj]
  | cons s suf ih =>
    intro j k C inp acc blen hC hj hlen hdrop
    have hL1 : (e0 :: etl).length = etl.length + 1 := by simp
    have hL2 : (s :: suf).length = suf.length + 1 := by simp
    have hget : (e0 :: etl)[j]? = some s := getElemOfDrop _ j s suf hdrop
    have hjlt : j < (e0 :: etl).length := by omega
    have hstep := readTillGo_escape_cont Sw e0 d0 etl dtl false false C
      (suf ++ inp) j s blen hC hjlt hget
    have hfuel : (s :: suf).length + k = (suf.length + k) + 1 := by
      simp only [List.length_cons]; omega
    rw [hfuel, List.cons_append,
      Read_step_false (suf.length + k) _ _ blen acc rfl
        ((readTill_inited Sw (e0 :: etl) (d0 :: dtl) j true false false C
          (s :: (suf ++ inp)) blen).trans hstep)]
    exact ih (j + 1) k C inp acc blen hC (by omega) (by omega)
      (dropSuccOfDrop _ j s suf hdrop)

/-- Matching a full literal escape occurrence from scanning state leaves the
reader in the completed-match state. -/
theorem Read_escape_match (Sw e0 d0 : Nat) (etl dtl : List Nat) (k : Nat)
    (C inp acc : List Nat) (blen : Nat) (hC : C.length < blen) :
    DelimitedStreamReader.Read ((e0 :: etl).length + k)
        (DelimitedStreamReader.mk Sw (e0 :: etl) (d0 :: dtl) 0 false false
          false true C ((e0 :: etl) ++ inp)) blen acc
      = DelimitedStreamReader.Read k
          (DelimitedStreamReader.mk Sw (e0 :: etl) (d0 :: dtl)
            (e0 :: etl).length true false false true C inp) blen acc := by
  have hstep := readTillGo_escape_enter Sw e0 d0 etl dtl false false C
    (etl ++ inp) blen hC
  have hfuel : (e0 :: etl).length + k = (etl.length + k) + 1 := by
    simp only [List.length_cons]; omega
  rw [hfuel, List.cons_append,
    Read_step_false (etl.length + k) _ _ blen acc rfl
      ((readTill_inited Sw (e0 :: etl) (d0 :: dtl) 0 false false false C
        (e0 :: (etl ++ inp)) blen).trans hstep)]
  cases hetl : etl with
  | nil => simp only [List.length_nil, Nat.zero_add, List.nil_append]; rfl
  | cons a t =>
    rw [← hetl]
    exact Read_escape_tail Sw e0 d0 etl dtl etl 1 k C inp acc blen hC
      (by omega) (by simp only [List.length_cons]; omega) (by simp)

/-- Resolving a completed escape match against the swap byte: the decoder
emits `Delimiter[0]`. -/
theorem Read_swap_step (Sw e0 d0 : Nat) (etl dtl : List Nat) (k : Nat)
    (C inp acc : List Nat) (blen : Nat) (hC : C.length < blen) :
    DelimitedStreamReader.Read (k + 1)
        (DelimitedStreamReader.mk Sw (e0 :: etl) (d0 :: dtl)
          (e0 :: etl).length true false false true C (Sw :: inp)) blen acc
      = DelimitedStreamReader.Read k
          (DelimitedStreamReader.mk Sw (e0 :: etl) (d0 :: dtl) 0 false false
            false true (C ++ [d0]) inp) blen acc := by
  have hstep := readTillGo_swap_resolve Sw e0 d0 etl dtl false false C inp
    blen hC
  rw [Read_step_false k _ _ blen acc rfl
    ((readTill_inited Sw (e0 :: etl) (d0 :: dtl) (e0 :: etl).length true false
      false C (Sw :: inp) blen).trans hstep)]

/-- Resolving a completed escape match whose follower is neither the swap
byte nor the delimiter: the escape bytes are replayed verbatim and the
follower is not consumed. -/
theorem Read_false_pos_step (Sw e0 d0 : Nat) (etl dtl : List Nat) (k : Nat)
    (C inp acc : List Nat) (c : Nat) (blen : Nat) (hC : C.length < blen)
    (hcsw : c ≠ Sw) (hcd : c ≠ d0) (hlen : dtl.length ≤ inp.length) :
    DelimitedStreamReader.Read (k + 1)
        (DelimitedStreamReader.mk Sw (e0 :: etl) (d0 :: dtl)
          (e0 :: etl).length true false false true C (c :: inp)) blen acc
      = DelimitedStreamReader.Read k
          (DelimitedStreamReader.mk Sw (e0 :: etl) (d0 :: dtl) 0 false false
            false true (C ++ (e0 :: etl)) (c :: inp)) blen acc := by
  have hstep := readTillGo_escape_false_pos Sw e0 d0 etl dtl false false C
    inp c blen hC hcsw hcd hlen
  rw [Read_step_false k _ _ blen acc rfl
    ((readTill_inited Sw (e0 :: etl) (d0 :: dtl) (e0 :: etl).length true false
      false C (c :: inp) blen).trans hstep)]

/-! ### Claim theorems -/

/-- With a non-empty delimiter, `flush` always succeeds and leaves the
comparison buffer empty, all configuration and escape-match fields
untouched. -/
theorem flush_ok (w : DelimitedStreamWriter) (hD : w.Delimiter ≠ []) :
    ∃ w1, w.flush = .ok w1 ∧ w1.Swap = w.Swap ∧ w1.Escape = w.Escape ∧
      w1.Delimiter = w.Delimiter ∧ w1.index = w.index ∧
      w1.escape = w.escape ∧ w1.buffer = [] := by
  obtain ⟨d, D2, hD2⟩ := List.exists_cons_of_ne_nil hD
  unfold DelimitedStreamWriter.flush
  by_cases h1 : w.buffer = w.Delimiter
  · rw [if_pos h1]
    exact ⟨_, rfl, rfl, rfl, rfl, rfl, rfl, rfl⟩
  · rw [if_neg h1]
    by_cases h2 : w.buffer.length = 1
    · rw [if_pos h2, hD2]
      simp only [List.head?_cons]
      by_cases h3 : w.buffer.head? = some d
      · rw [if_pos h3]
        exact ⟨_, rfl, rfl, rfl, rfl, rfl, rfl, rfl⟩
      · rw [if_neg h3]
        exact ⟨_, rfl, rfl, rfl, rfl, rfl, rfl, rfl⟩
    · rw [if_neg h2]
      exact ⟨_, rfl, rfl, rfl, rfl, rfl, rfl, rfl⟩

/-- C8 (confirmed): after `End()` completes, the writer's escape index,
comparison buffer, escape buffer and byte counter are reset to their initial
empty state, and a second `End()` with no intervening writes appends exactly
one more delimiter sequence to the output and nothing else. -/
theorem c8_end_reset (w : DelimitedStreamWriter)
    (hne : w.Escape ≠ w.Delimiter) (hD : w.Delimiter ≠ []) :
    ∃ n w1, w.End = .ok (n, w1) ∧ w1.index = 0 ∧ w1.buffer = [] ∧
      w1.escape = [] ∧ w1.count = 0 ∧
      w1.End = .ok (w.Delimiter.length,
        { w1 with out := w1.out ++ w.Delimiter }) := by
  obtain ⟨wf, hf, hsw, hes, hdel, hidx, hesc, hbuf⟩ := flush_ok w hD
  have hne1 : wf.Escape ≠ wf.Delimiter := by rw [hes, hdel]; exact hne
  have hD1 : [] ≠ wf.Delimiter := by rw [hdel]; exact (Ne.symm hD)
  refine ⟨wf.count + wf.Delimiter.length,
    { wf with out := wf.out ++ wf.Delimiter, index := 0, buffer := [],
              escape := [], count := 0 }, ?_, rfl, rfl, rfl, rfl, ?_⟩
  · unfold DelimitedStreamWriter.End
    rw [if_neg hne, hf]
  · unfold DelimitedStreamWriter.End DelimitedStreamWriter.flush
    simp only [hne1, hD1, hdel]
    simp [hne1, Ne.symm hD]
    rw [hes]
    exact hne

/-- C9 (confirmed): for every lexer and every `n`, `Move n` clamps the
cursor to the last index `lx` and records `io.EOF` when `p + n` overshoots
past `lx`; moves to `p + n` with no failure when `p + n` stays strictly
before `lx`; and is a no-op when the lexer is already failed.
(`NewByteLexer` and `Reset` set `lx` to the last valid index
`length - 1`.) -/
theorem c9_move_clamp (bl : ByteLexer) (n : Int) :
    (bl.err = none → bl.lx < bl.p + n →
      (bl.Move n).p = bl.lx ∧ (bl.Move n).err = some .eof) ∧
    (bl.err = none → bl.p + n < bl.lx →
      (bl.Move n).p = bl.p + n ∧ (bl.Move n).err = none) ∧
    (bl.err ≠ none → bl.Move n = bl) := by
  refine ⟨?_, ?_, ?_⟩
  · intro he hov
    have hle : bl.lx ≤ bl.p + n := le_of_lt hov
    simp [ByteLexer.Move, he, hle]
  · intro he hlt
    have hnle : ¬ (bl.lx ≤ bl.p + n) := not_le.mpr hlt
    simp [ByteLexer.Move, he, hnle]
  · intro he
    simp [ByteLexer.Move, he]

/-- Witness for C9 at a concrete lexer: overshoot clamps with EOF, an
in-range move succeeds, a failed lexer is untouched. -/
theorem c9_move_clamp_witness :
    (((NewByteLexer [10, 20, 30]).err = none ∧
        (NewByteLexer [10, 20, 30]).lx < (NewByteLexer [10, 20, 30]).p + 9) ∧
      ((NewByteLexer [10, 20, 30]).Move 9).p = (NewByteLexer [10, 20, 30]).lx ∧
      ((NewByteLexer [10, 20, 30]).Move 9).err = some .eof) ∧
    (((NewByteLexer [10, 20, 30]).err = none ∧
        (NewByteLexer [10, 20, 30]).p + 1 < (NewByteLexer [10, 20, 30]).lx) ∧
      ((NewByteLexer [10, 20, 30]).Move 1).p =
          (NewByteLexer [10, 20, 30]).p + 1 ∧
      ((NewByteLexer [10, 20, 30]).Move 1).err = none) ∧
    ((((NewByteLexer [10, 20, 30]).Move 9).err ≠ none ∧
      ((NewByteLexer [10, 20, 30]).Move 9).Move 1 =
        (NewByteLexer [10, 20, 30]).Move 9)) :=
  ⟨⟨⟨by decide, by decide⟩,
      (c9_move_clamp (NewByteLexer [10, 20, 30]) 9).1 (by decide) (by decide)⟩,
    ⟨⟨by decide, by decide⟩,
      (c9_move_clamp (NewByteLexer [10, 20, 30]) 1).2.1 (by decide)
        (by decide)⟩,
    ⟨by decide,
      (c9_move_clamp ((NewByteLexer [10, 20, 30]).Move 9) 1).2.2 (by decide)⟩⟩

/-- C10 counterexample: `Move` with a negative step is accepted without
failure but drives the cursor below the sentinel, after which `Index`
indexes out of bounds (a Go panic) instead of returning a byte — so
`Index` is not total at the public interface as claimed. -/
theorem c10_counterexample :
    ((NewByteLexer [10, 20, 30]).Move (-1)).err = none ∧
    ((NewByteLexer [10, 20, 30]).Move (-1)).Index = none := by
  decide

/-- C10 (amended): `Index` is total on every lexer state reachable by
forward advances: `NewByteLexer` returns the zero byte at the sentinel, the
invariant `-1 ≤ p ≤ lx` is preserved by `Move` with non-negative step and by
`Next`, and under it `Index` always returns a byte — the zero byte at the
sentinel, the byte at the cursor otherwise. -/
theorem c10_index_total_forward :
    (∀ bs : List Nat, (NewByteLexer bs).Index = some 0) ∧
    (∀ bs : List Nat, (NewByteLexer bs).Inv) ∧
    (∀ (bl : ByteLexer) (n : Int), bl.Inv → 0 ≤ n → (bl.Move n).Inv) ∧
    (∀ bl : ByteLexer, bl.Inv → (bl.Next).1.Inv) ∧
    (∀ bl : ByteLexer, bl.Inv → ∃ v, bl.Index = some v ∧
      (bl.p = -1 → v = 0) ∧ (bl.p ≠ -1 → bl.buf[bl.p.toNat]? = some v)) := by
  refine ⟨?_, ?_, ?_, ?_, ?_⟩
  · intro bs; simp [NewByteLexer, ByteLexer.Index]
  · intro bs
    refine ⟨rfl, rfl, by simp [NewByteLexer], ?_⟩
    show (-1 : Int) ≤ (bs.length : Int) - 1
    omega
  · rintro bl n ⟨hln, hlx, hp1, hp2⟩ hn
    unfold ByteLexer.Move
    by_cases he : bl.err ≠ none
    · simpa [he] using ⟨hln, hlx, hp1, hp2⟩
    · simp only [he, if_false]
      by_cases hc : bl.lx ≤ bl.p + n
      · simp only [hc, if_pos]
        refine ⟨hln, hlx, ?_, ?_⟩
        · show (-1 : Int) ≤ bl.lx
          rw [hlx]; omega
        · show bl.lx ≤ bl.lx
          exact le_refl _
      · simp only [hc, if_false]
        refine ⟨hln, hlx, ?_, ?_⟩
        · show (-1 : Int) ≤ bl.p + n
          omega
        · show bl.p + n ≤ bl.lx
          omega
  · rintro bl ⟨hln, hlx, hp1, hp2⟩
    unfold ByteLexer.Next
    by_cases hc : bl.ln ≤ bl.p + 1
    · simp only [hc, if_pos]
      exact ⟨hln, hlx, hp1, hp2⟩
    · simp only [hc, if_false]
      refine ⟨hln, hlx, ?_, ?_⟩
      · show (-1 : Int) ≤ bl.p + 1
        omega
      · show bl.p + 1 ≤ bl.lx
        omega
  · rintro bl ⟨hln, hlx, hp1, hp2⟩
    unfold ByteLexer.Index
    by_cases hs : bl.p = -1
    · exact ⟨0, by simp [hs], fun _ => rfl, fun hc => absurd hs hc⟩
    · have hp0 : 0 ≤ bl.p := by omega
      have hplen : bl.p.toNat < bl.buf.length := by omega
      refine ⟨bl.buf.get ⟨bl.p.toNat, hplen⟩, ?_, fun hc => absurd hc hs, ?_⟩
      · simp [hs, hp0, List.getElem?_eq_getElem hplen]
      · intro _
        simp [List.getElem?_eq_getElem hplen]

/-- Witness for C10's amended theorem at concrete states. -/
theorem c10_index_total_forward_witness :
    (NewByteLexer [10, 20, 30]).Index = some 0 ∧
    (NewByteLexer [10, 20, 30]).Inv ∧
    (0 : Int) ≤ 1 ∧ ((NewByteLexer [10, 20, 30]).Move 1).Inv ∧
    ((NewByteLexer [10, 20, 30]).Next).1.Inv ∧
    (∃ v, ((NewByteLexer [10, 20, 30]).Move 1).Index = some v ∧
      (((NewByteLexer [10, 20, 30]).Move 1).p = -1 → v = 0) ∧
      (((NewByteLexer [10, 20, 30]).Move 1).p ≠ -1 →
        ((NewByteLexer [10, 20, 30]).Move 1).buf[
          ((NewByteLexer [10, 20, 30]).Move 1).p.toNat]? = some v)) :=
  ⟨c10_index_total_forward.1 [10, 20, 30],
    c10_index_total_forward.2.1 [10, 20, 30],
    by decide,
    c10_index_total_forward.2.2.1 (NewByteLexer [10, 20, 30]) 1
      (c10_index_total_forward.2.1 [10, 20, 30]) (by decide),
    c10_index_total_forward.2.2.2.1 (NewByteLexer [10, 20, 30])
      (c10_index_total_forward.2.1 [10, 20, 30]),
    c10_index_total_forward.2.2.2.2 ((NewByteLexer [10, 20, 30]).Move 1)
      (c10_index_total_forward.2.2.1 (NewByteLexer [10, 20, 30]) 1
        (c10_index_total_forward.2.1 [10, 20, 30]) (by decide))⟩

/-- C1 counterexample: with `Escape = [1,2]`, `Delimiter = [3,4]`, the
payload `P = [1]` contains neither the delimiter nor the escape sequence,
yet `End()` discards the partial escape-match buffer, the encoded stream is
just the delimiter, and reading delivers nothing and returns `io.EOF` —
never the `ErrEOS` sentinel — instead of reproducing `P`. -/
theorem c1_roundtrip_counterexample :
    encodeUnitOut [1, 2] [3, 4] 38 [1] = some [3, 4] ∧
    decodeRead [1, 2] [3, 4] 38 [3, 4] 10 5
      = .out [] (some .eof)
          (DelimitedStreamReader.mk 38 [1, 2] [3, 4] 0 false true false true
            [] []) ∧
    ([] : List Nat) ≠ [1] := by
  refine ⟨by decide, by decide, by decide⟩

/-- C2 counterexample: three empty payloads.  The encoded stream is three
delimiters, but the first `Read` returns `io.EOF` (from draining the empty
cache), not the decoded bytes of `P1` followed by `ErrEOS`. -/
theorem c2_multiunit_counterexample :
    encodeUnitsOut [1, 2] [3, 4] 38 [[], [], []] = some [3, 4, 3, 4, 3, 4] ∧
    decodeRead [1, 2] [3, 4] 38 [3, 4, 3, 4, 3, 4] 10 5
      = .out [] (some .eof)
          (DelimitedStreamReader.mk 38 [1, 2] [3, 4] 0 false true false true
            [] [3, 4, 3, 4]) := by
  refine ⟨by decide, by decide⟩

/-- C3 (code bug): payload `[3,3,4]` contains the literal delimiter
`[3,4]`, but the encoder flushes the disproven candidate `[3,3]` verbatim,
re-exposing an unescaped delimiter in the stream; the decoder then returns
the `ErrEOS` boundary after delivering only `[3]` — a premature unit
boundary at the in-payload delimiter position, and the payload is not
reproduced. -/
theorem c3_delimiter_in_payload_bug :
    encodeUnitOut [1, 2] [3, 4] 38 [3, 3, 4] = some [3, 3, 4, 3, 4] ∧
    decodeRead [1, 2] [3, 4] 38 [3, 3, 4, 3, 4] 10 4
      = .out [3] (some .eos)
          (DelimitedStreamReader.mk 38 [1, 2] [3, 4] 0 false false false true
            [] [3, 4]) ∧
    ([3] : List Nat) ≠ [3, 3, 4] := by
  refine ⟨by decide, by decide, by decide⟩

/-- C4 counterexample: `P = [3,3,4,3]` ends in `Delimiter[0] = 3` and the
tail-ambiguity escape is emitted, but the `[3,3]`-candidate flush earlier in
the payload re-exposes a delimiter, so decoding stops prematurely with
`[3]` instead of `P`. -/
theorem c4_tail_counterexample :
    encodeUnitOut [1, 2] [3, 4] 38 [3, 3, 4, 3]
      = some [3, 3, 4, 1, 2, 38, 3, 4] ∧
    decodeRead [1, 2] [3, 4] 38 [3, 3, 4, 1, 2, 38, 3, 4] 12 5
      = .out [3] (some .eos)
          (DelimitedStreamReader.mk 38 [1, 2] [3, 4] 0 false false false true
            [] [1, 2, 38, 3, 4]) ∧
    ([3] : List Nat) ≠ [3, 3, 4, 3] := by
  refine ⟨by decide, by decide, by decide⟩

/-- C5 counterexample: the payload `P = [1,2]` is exactly the escape
sequence, which in `P` is followed by neither the swap byte nor the
delimiter; the encoder emits it verbatim, but in the encoded stream it is
immediately followed by the closing delimiter, so the decoder undoes a
delimiter escape that was never applied: it delivers `[3,4]` and ends with
`io.EOF`, never `ErrEOS`. -/
theorem c5_escape_counterexample :
    encodeUnitOut [1, 2] [3, 4] 38 [1, 2] = some [1, 2, 3, 4] ∧
    decodeRead [1, 2] [3, 4] 38 [1, 2, 3, 4] 12 3
      = .out [3, 4] (some .eof)
          (DelimitedStreamReader.mk 38 [1, 2] [3, 4] 0 false false false true
            [] []) ∧
    ([3, 4] : List Nat) ≠ [1, 2] := by
  refine ⟨by decide, by decide, by decide⟩

/-- C6 (code bug): with `Escape = [1,2,3]`, after partially matching
`k = 2` escape bytes the byte `9` breaks the match; the decoder emits only
`Escape[:k-1] = [1]` (the slice `dr.Escape[:dr.index-1]`, an off-by-one),
unreads `9`, and so delivers `[1,9]` — the matched byte `2` is dropped from
the decoded output, contradicting the claim that all `k` partially-matched
bytes are emitted. -/
theorem c6_partial_escape_drop_bug :
    decodeRead [1, 2, 3] [5, 6] 38 [1, 2, 9, 5, 6] 12 6
      = .out [1, 9] (some .eos)
          (DelimitedStreamReader.mk 38 [1, 2, 3] [5, 6] 0 false false false
            true [] []) ∧
    ([1, 9] : List Nat) ≠ [1, 2, 9] := by
  refine ⟨by decide, by decide⟩

/-- C7 (code bug): with `Escape = Delimiter`, the writer's first operations
(`Write`, `End`) fail with `ErrInvalidEscapeAndDelimiter` and nothing
reaches the sink, exactly as claimed; `readTill` also reports the error on
first use, but `Read` then evaluates `dr.cached.Len()` on the
still-nil cache and panics instead of returning the error. -/
theorem c7_config_rejection_bug :
    (initW [7] [7] 38).Write [5, 6] = .error .config ∧
    (initW [7] [7] 38).End = .error .config ∧
    (initW [7] [7] 38).out = [] ∧
    (initR [7] [7] 38 [1, 2, 3]).readTill 4
      = (initR [7] [7] 38 [1, 2, 3], some .config, false) ∧
    decodeRead [7] [7] 38 [1, 2, 3] 5 4 = .panicked := by
  refine ⟨rfl, rfl, by decide, by decide, by decide⟩

/-- C1 (amended): for a configuration with `Escape[0] ≠ Delimiter[0]` and a
non-empty payload `P` containing none of the bytes `Escape[0]` and
`Delimiter[0]`, encoding `P` and calling `End()` produces `P ++ Delimiter`,
and one `Read` with room `|P| + 1` delivers exactly `P` and returns the
`ErrEOS` sentinel. -/
theorem c1_roundtrip_clean (e0 d0 sw : Nat) (etl dtl : List Nat)
    (P : List Nat) (k : Nat) (hed : e0 ≠ d0) (hsw : sw ≠ 0)
    (hP : ∀ b ∈ P, b ≠ e0 ∧ b ≠ d0) (hPne : P ≠ []) :
    encodeUnitOut (e0 :: etl) (d0 :: dtl) sw P = some (P ++ (d0 :: dtl)) ∧
    decodeRead (e0 :: etl) (d0 :: dtl) sw (P ++ (d0 :: dtl))
        (P.length + 2 + k) (P.length + 1)
      = .out P (some .eos) (runningR (e0 :: etl) (d0 :: dtl) sw []) := by
  have hne : (e0 :: etl) ≠ (d0 :: dtl) := by simp [hed]
  constructor
  · unfold encodeUnitOut initW
    simp only [write_clean sw e0 d0 etl dtl P 0 [] hne hP,
      end_clean sw e0 d0 etl dtl (0 + P.length) ([] ++ P) hne]
    simp
  · unfold decodeRead
    have hf : P.length + 2 + k = (P.length + 1 + k) + 1 := by omega
    rw [hf, Read_init (P.length + 1 + k) sw (e0 :: etl) (d0 :: dtl)
      (P ++ (d0 :: dtl)) (P.length + 1) [] hne]
    simp only [if_neg hsw]
    have hf2 : P.length + 1 + k + 1 = P.length + (k + 2) := by omega
    have hs : P ++ (d0 :: dtl) = P ++ ((d0 :: dtl) ++ []) := by simp
    rw [hf2, hs, Read_unit sw e0 d0 etl dtl P k [] [] (P.length + 1) hP hPne
      (by omega) (Ne.symm hed)]
    simp [runningR, initR]

/-- Witness for C1's amended round trip at a concrete instance. -/
theorem c1_roundtrip_clean_witness :
    ((1 : Nat) ≠ 3 ∧ (38 : Nat) ≠ 0 ∧
      (∀ b ∈ [5, 6, 7], b ≠ 1 ∧ b ≠ 3) ∧ ([5, 6, 7] : List Nat) ≠ []) ∧
    encodeUnitOut [1, 2] [3, 4] 38 [5, 6, 7] = some [5, 6, 7, 3, 4] ∧
    decodeRead [1, 2] [3, 4] 38 [5, 6, 7, 3, 4] 5 4
      = .out [5, 6, 7] (some .eos) (runningR [1, 2] [3, 4] 38 []) :=
  ⟨⟨by decide, by decide, by decide, by decide⟩,
    c1_roundtrip_clean 1 3 38 [2] [4] [5, 6, 7] 0 (by decide) (by decide)
      (by decide) (by decide)⟩

/-- Reading one unit from an initialised, between-units reader state. -/
theorem Read_unit_running (e0 d0 sw : Nat) (etl dtl : List Nat)
    (Q rest : List Nat) (hQ : ∀ b ∈ Q, b ≠ e0 ∧ b ≠ d0) (hQne : Q ≠ [])
    (hed : e0 ≠ d0) :
    DelimitedStreamReader.Read (Q.length + 2)
        (runningR (e0 :: etl) (d0 :: dtl) sw (Q ++ (d0 :: dtl) ++ rest))
        (Q.length + 1) []
      = .out Q (some .eos) (runningR (e0 :: etl) (d0 :: dtl) sw rest) := by
  have h0 : runningR (e0 :: etl) (d0 :: dtl) sw (Q ++ (d0 :: dtl) ++ rest)
      = DelimitedStreamReader.mk sw (e0 :: etl) (d0 :: dtl) 0 false false
          false true [] (Q ++ ((d0 :: dtl) ++ rest)) := by
    simp [runningR, initR, List.append_assoc]
  rw [h0]
  have h1 := Read_unit sw e0 d0 etl dtl Q 0 rest [] (Q.length + 1) hQ hQne
    (by omega) (Ne.symm hed)
  simpa [runningR, initR] using h1

/-- C2 (amended): for non-empty payloads `P1, P2, P3` made of bytes distinct
from `Escape[0]` and `Delimiter[0]` (config with `Escape[0] ≠ Delimiter[0]`),
writing the three units through one writer produces
`P1 ++ D ++ P2 ++ D ++ P3 ++ D`, and three successive `Read` calls yield
`P1` then `ErrEOS`, `P2` then `ErrEOS`, `P3` then `ErrEOS`, in that order,
the sentinel only ever delivered once the cache is fully drained. -/
theorem c2_multiunit_order (e0 d0 sw : Nat) (etl dtl : List Nat)
    (P1 P2 P3 : List Nat) (hed : e0 ≠ d0) (hsw : sw ≠ 0)
    (hP1 : ∀ b ∈ P1, b ≠ e0 ∧ b ≠ d0) (hP1ne : P1 ≠ [])
    (hP2 : ∀ b ∈ P2, b ≠ e0 ∧ b ≠ d0) (hP2ne : P2 ≠ [])
    (hP3 : ∀ b ∈ P3, b ≠ e0 ∧ b ≠ d0) (hP3ne : P3 ≠ []) :
    encodeUnitsOut (e0 :: etl) (d0 :: dtl) sw [P1, P2, P3]
      = some (P1 ++ (d0 :: dtl) ++ P2 ++ (d0 :: dtl) ++ P3 ++ (d0 :: dtl)) ∧
    decodeRead (e0 :: etl) (d0 :: dtl) sw
        (P1 ++ (d0 :: dtl) ++ P2 ++ (d0 :: dtl) ++ P3 ++ (d0 :: dtl))
        (P1.length + 2) (P1.length + 1)
      = .out P1 (some .eos) (runningR (e0 :: etl) (d0 :: dtl) sw
          (P2 ++ (d0 :: dtl) ++ P3 ++ (d0 :: dtl))) ∧
    DelimitedStreamReader.Read (P2.length + 2)
        (runningR (e0 :: etl) (d0 :: dtl) sw
          (P2 ++ (d0 :: dtl) ++ P3 ++ (d0 :: dtl))) (P2.length + 1) []
      = .out P2 (some .eos) (runningR (e0 :: etl) (d0 :: dtl) sw
          (P3 ++ (d0 :: dtl))) ∧
    DelimitedStreamReader.Read (P3.length + 2)
        (runningR (e0 :: etl) (d0 :: dtl) sw (P3 ++ (d0 :: dtl)))
        (P3.length + 1) []
      = .out P3 (some .eos) (runningR (e0 :: etl) (d0 :: dtl) sw []) := by
  have hne : (e0 :: etl) ≠ (d0 :: dtl) := by simp [hed]
  refine ⟨?_, ?_, ?_, ?_⟩
  · unfold encodeUnitsOut initW
    simp only [DelimitedStreamWriter.WriteUnits,
      write_clean sw e0 d0 etl dtl P1 0 [] hne hP1,
      end_clean sw e0 d0 etl dtl (0 + P1.length) ([] ++ P1) hne,
      write_clean sw e0 d0 etl dtl P2 0 (([] ++ P1) ++ (d0 :: dtl)) hne hP2,
      end_clean sw e0 d0 etl dtl (0 + P2.length)
        ((([] ++ P1) ++ (d0 :: dtl)) ++ P2) hne,
      write_clean sw e0 d0 etl dtl P3 0
        (((([] ++ P1) ++ (d0 :: dtl)) ++ P2) ++ (d0 :: dtl)) hne hP3,
      end_clean sw e0 d0 etl dtl (0 + P3.length)
        ((((([] ++ P1) ++ (d0 :: dtl)) ++ P2) ++ (d0 :: dtl)) ++ P3) hne]
    simp
  · unfold decodeRead
    rw [Read_init (P1.length + 1) sw (e0 :: etl) (d0 :: dtl) _ (P1.length + 1)
      [] hne]
    simp only [if_neg hsw]
    have hS : P1 ++ (d0 :: dtl) ++ P2 ++ (d0 :: dtl) ++ P3 ++ (d0 :: dtl)
        = P1 ++ (d0 :: dtl) ++ (P2 ++ (d0 :: dtl) ++ P3 ++ (d0 :: dtl)) := by
      simp [List.append_assoc]
    rw [hS]
    exact Read_unit_running e0 d0 sw etl dtl P1
      (P2 ++ (d0 :: dtl) ++ P3 ++ (d0 :: dtl)) hP1 hP1ne hed
  · have hS : P2 ++ (d0 :: dtl) ++ P3 ++ (d0 :: dtl)
        = P2 ++ (d0 :: dtl) ++ (P3 ++ (d0 :: dtl)) := by
      simp [List.append_assoc]
    rw [hS]
    exact Read_unit_running e0 d0 sw etl dtl P2 (P3 ++ (d0 :: dtl)) hP2 hP2ne
      hed
  · have hS : P3 ++ (d0 :: dtl) = P3 ++ (d0 :: dtl) ++ [] := by simp
    rw [hS]
    exact Read_unit_running e0 d0 sw etl dtl P3 [] hP3 hP3ne hed

/-- Witness for C2's amended multi-unit ordering at a concrete instance. -/
theorem c2_multiunit_order_witness :
    ((1 : Nat) ≠ 3 ∧ (38 : Nat) ≠ 0 ∧ ([5] : List Nat) ≠ [] ∧
      ([6] : List Nat) ≠ [] ∧ ([7] : List Nat) ≠ []) ∧
    encodeUnitsOut [1, 2] [3, 4] 38 [[5], [6], [7]]
      = some [5, 3, 4, 6, 3, 4, 7, 3, 4] ∧
    decodeRead [1, 2] [3, 4] 38 [5, 3, 4, 6, 3, 4, 7, 3, 4] 3 2
      = .out [5] (some .eos) (runningR [1, 2] [3, 4] 38 [6, 3, 4, 7, 3, 4]) ∧
    DelimitedStreamReader.Read 3 (runningR [1, 2] [3, 4] 38 [6, 3, 4, 7, 3, 4])
        2 []
      = .out [6] (some .eos) (runningR [1, 2] [3, 4] 38 [7, 3, 4]) ∧
    DelimitedStreamReader.Read 3 (runningR [1, 2] [3, 4] 38 [7, 3, 4]) 2 []
      = .out [7] (some .eos) (runningR [1, 2] [3, 4] 38 []) :=
  ⟨⟨by decide, by decide, by decide, by decide, by decide⟩,
    c2_multiunit_order 1 3 38 [2] [4] [5] [6] [7] (by decide) (by decide)
      (by decide) (by decide) (by decide) (by decide) (by decide) (by decide)⟩

/-- `Write` splits over list append. -/
theorem Write_append (A : List Nat) :
    ∀ (w w1 : DelimitedStreamWriter) (B : List Nat),
    w.Write A = .ok w1 → w.Write (A ++ B) = w1.Write B := by
  induction A with
  | nil =>
    intro w w1 B h
    simp only [DelimitedStreamWriter.Write] at h
    cases h
    simp
  | cons a A ih =>
    intro w w1 B h
    simp only [DelimitedStreamWriter.Write] at h ⊢
    cases hwb : w.writeByte a with
    | error e => rw [hwb] at h; exact absurd h (by simp)
    | ok w2 =>
      rw [hwb] at h
      simp only [List.cons_append]
      exact ih w2 w1 B h

/-- C4 (amended): for a payload `Q ++ [Delimiter[0]]` whose prefix `Q` is
free of `Escape[0]` and `Delimiter[0]` bytes (delimiter length ≥ 2,
`Escape[0] ≠ Delimiter[0]`, shared non-zero swap byte), the encoder emits
`Q ++ Escape ++ [Swap] ++ Delimiter`, the decoder reproduces exactly
`Q ++ [Delimiter[0]]` followed by `ErrEOS`, and a second clean unit `P2`
written immediately after decodes correctly from the leftover state. -/
theorem c4_tail_ambiguity (e0 d0 sw : Nat) (etl dtl : List Nat)
    (Q P2 : List Nat) (hed : e0 ≠ d0) (hsw : sw ≠ 0) (hdtl : dtl ≠ [])
    (hQ : ∀ b ∈ Q, b ≠ e0 ∧ b ≠ d0)
    (hP2 : ∀ b ∈ P2, b ≠ e0 ∧ b ≠ d0) (hP2ne : P2 ≠ []) :
    encodeUnitsOut (e0 :: etl) (d0 :: dtl) sw [Q ++ [d0], P2]
      = some (Q ++ (e0 :: etl) ++ [sw] ++ (d0 :: dtl) ++ P2 ++ (d0 :: dtl)) ∧
    decodeRead (e0 :: etl) (d0 :: dtl) sw
        (Q ++ (e0 :: etl) ++ [sw] ++ (d0 :: dtl) ++ P2 ++ (d0 :: dtl))
        (Q.length + (e0 :: etl).length + 3) (Q.length + 2)
      = .out (Q ++ [d0]) (some .eos)
          (runningR (e0 :: etl) (d0 :: dtl) sw (P2 ++ (d0 :: dtl))) ∧
    DelimitedStreamReader.Read (P2.length + 2)
        (runningR (e0 :: etl) (d0 :: dtl) sw (P2 ++ (d0 :: dtl)))
        (P2.length + 1) []
      = .out P2 (some .eos) (runningR (e0 :: etl) (d0 :: dtl) sw []) := by
  have hne : (e0 :: etl) ≠ (d0 :: dtl) := by simp [hed]
  refine ⟨?_, ?_, ?_⟩
  · have h1a := write_clean sw e0 d0 etl dtl Q 0 [] hne hQ
    have h1b : (DelimitedStreamWriter.mk sw (e0 :: etl) (d0 :: dtl) 0
        (0 + Q.length) [] [] ([] ++ Q)).Write [d0]
        = .ok (DelimitedStreamWriter.mk sw (e0 :: etl) (d0 :: dtl) 0
            (0 + Q.length + 1) [d0] [] ([] ++ Q)) := by
      simp only [DelimitedStreamWriter.Write,
        writeByte_delimHead sw e0 d0 etl dtl (0 + Q.length) ([] ++ Q) hne
          (Ne.symm hed)]
    have h1 := Write_append Q _ _ [d0] h1a
    rw [h1b] at h1
    have h2 := end_buffered_d0 sw e0 d0 etl dtl (0 + Q.length + 1) ([] ++ Q)
      hne hdtl
    unfold encodeUnitsOut initW
    simp only [DelimitedStreamWriter.WriteUnits, h1, h2,
      write_clean sw e0 d0 etl dtl P2 0
        ((([] ++ Q) ++ (e0 :: etl) ++
          [(DelimitedStreamWriter.mk sw (e0 :: etl) (d0 :: dtl) 0
            (0 + Q.length + 1) [d0] [] ([] ++ Q)).effSwap] ++ (d0 :: dtl)))
        hne hP2,
      end_clean sw e0 d0 etl dtl (0 + P2.length)
        (((([] ++ Q) ++ (e0 :: etl) ++
          [(DelimitedStreamWriter.mk sw (e0 :: etl) (d0 :: dtl) 0
            (0 + Q.length + 1) [d0] [] ([] ++ Q)).effSwap] ++ (d0 :: dtl)))
          ++ P2) hne]
    simp [DelimitedStreamWriter.effSwap, hsw]
  · unfold decodeRead
    have hf : Q.length + (e0 :: etl).length + 3
        = (Q.length + (e0 :: etl).length + 2) + 1 := by omega
    rw [hf, Read_init _ sw (e0 :: etl) (d0 :: dtl) _ (Q.length + 2) [] hne]
    simp only [if_neg hsw]
    have hS : Q ++ (e0 :: etl) ++ [sw] ++ (d0 :: dtl) ++ P2 ++ (d0 :: dtl)
        = Q ++ ((e0 :: etl) ++ (sw :: ((d0 :: dtl) ++ (P2 ++ (d0 :: dtl))))) := by
      simp [List.append_assoc]
    rw [hS]
    have hf2 : Q.length + (e0 :: etl).length + 2 + 1
        = Q.length + ((e0 :: etl).length + 3) := by omega
    rw [hf2, Read_scan sw e0 d0 etl dtl Q ((e0 :: etl).length + 3) [] _ []
      (Q.length + 2) hQ (by simp)]
    simp only [List.nil_append]
    have hf3 : (e0 :: etl).length + 3 = (e0 :: etl).length + (2 + 1) := by
      omega
    rw [hf3, Read_escape_match sw e0 d0 etl dtl (2 + 1) Q
      (sw :: ((d0 :: dtl) ++ (P2 ++ (d0 :: dtl)))) [] (Q.length + 2)
      (by omega)]
    rw [Read_swap_step sw e0 d0 etl dtl 2 Q ((d0 :: dtl) ++ (P2 ++ (d0 :: dtl)))
      [] (Q.length + 2) (by omega)]
    have h5 := Read_finish sw e0 d0 etl dtl 0 (Q ++ [d0])
      (P2 ++ (d0 :: dtl)) [] (Q.length + 2) (by simp) (by simp)
      (Ne.symm hed)
    simp only [Nat.zero_add] at h5
    rw [h5]
    simp [runningR, initR]
  · have hS : P2 ++ (d0 :: dtl) = P2 ++ (d0 :: dtl) ++ [] := by simp
    rw [hS]
    exact Read_unit_running e0 d0 sw etl dtl P2 [] hP2 hP2ne hed

/-- Witness for C4's amended tail-ambiguity round trip at a concrete
instance. -/
theorem c4_tail_ambiguity_witness :
    ((1 : Nat) ≠ 3 ∧ (38 : Nat) ≠ 0 ∧ ([4] : List Nat) ≠ [] ∧
      ([6] : List Nat) ≠ []) ∧
    encodeUnitsOut [1, 2] [3, 4] 38 [[5, 3], [6]]
      = some [5, 1, 2, 38, 3, 4, 6, 3, 4] ∧
    decodeRead [1, 2] [3, 4] 38 [5, 1, 2, 38, 3, 4, 6, 3, 4] 6 3
      = .out [5, 3] (some .eos) (runningR [1, 2] [3, 4] 38 [6, 3, 4]) ∧
    DelimitedStreamReader.Read 3 (runningR [1, 2] [3, 4] 38 [6, 3, 4]) 2 []
      = .out [6] (some .eos) (runningR [1, 2] [3, 4] 38 []) :=
  ⟨⟨by decide, by decide, by decide, by decide⟩,
    c4_tail_ambiguity 1 3 38 [2] [4] [5] [6] (by decide) (by decide)
      (by decide) (by decide) (by decide) (by decide)⟩

/-- C5 (amended): a payload `A ++ Escape ++ [c] ++ B` containing the full
literal escape sequence followed by a byte `c` that is neither the swap
byte, nor `Escape[0]`, nor `Delimiter[0]` (so in the encoded stream the
escape is followed by neither the swap byte nor the delimiter), with clean
`A`, `B` and escape length ≥ 2, round-trips exactly: the encoder emits the
escape verbatim and the decoder's failed peek replays it, consuming no
following byte. -/
theorem c5_escape_literal (e0 d0 sw c : Nat) (etl dtl : List Nat)
    (A B : List Nat) (hed : e0 ≠ d0) (hsw : sw ≠ 0) (hetl : etl ≠ [])
    (hA : ∀ b ∈ A, b ≠ e0 ∧ b ≠ d0) (hB : ∀ b ∈ B, b ≠ e0 ∧ b ≠ d0)
    (hcsw : c ≠ sw) (hce : c ≠ e0) (hcd : c ≠ d0) :
    encodeUnitOut (e0 :: etl) (d0 :: dtl) sw (A ++ (e0 :: etl) ++ [c] ++ B)
      = some (A ++ (e0 :: etl) ++ [c] ++ B ++ (d0 :: dtl)) ∧
    decodeRead (e0 :: etl) (d0 :: dtl) sw
        (A ++ (e0 :: etl) ++ [c] ++ B ++ (d0 :: dtl))
        (A.length + (e0 :: etl).length + B.length + 4)
        (A.length + (e0 :: etl).length + B.length + 2)
      = .out (A ++ (e0 :: etl) ++ [c] ++ B) (some .eos)
          (runningR (e0 :: etl) (d0 :: dtl) sw []) := by
  have hne : (e0 :: etl) ≠ (d0 :: dtl) := by simp [hed]
  constructor
  · have h1 := write_clean sw e0 d0 etl dtl A 0 [] hne hA
    have h2 := write_escape_full sw e0 d0 etl dtl (0 + A.length) ([] ++ A)
      hne hetl
    have h3 : (DelimitedStreamWriter.mk sw (e0 :: etl) (d0 :: dtl) 0
        (0 + A.length + (e0 :: etl).length) [] []
        (([] ++ A) ++ (e0 :: etl))).Write [c]
        = .ok (DelimitedStreamWriter.mk sw (e0 :: etl) (d0 :: dtl) 0
            (0 + A.length + (e0 :: etl).length + 1) [] []
            ((([] ++ A) ++ (e0 :: etl)) ++ [c])) := by
      simp only [DelimitedStreamWriter.Write,
        writeByte_clean sw e0 d0 etl dtl (0 + A.length + (e0 :: etl).length)
          (([] ++ A) ++ (e0 :: etl)) c hne hce hcd]
    have h4 := write_clean sw e0 d0 etl dtl B
      (0 + A.length + (e0 :: etl).length + 1)
      ((([] ++ A) ++ (e0 :: etl)) ++ [c]) hne hB
    have hc1 := Write_append A _ _ ((e0 :: etl) ++ ([c] ++ B)) h1
    rw [Write_append (e0 :: etl) _ _ ([c] ++ B) h2] at hc1
    rw [Write_append [c] _ _ B h3] at hc1
    rw [h4] at hc1
    have hassoc : A ++ (e0 :: etl) ++ [c] ++ B
        = A ++ ((e0 :: etl) ++ ([c] ++ B)) := by simp
    unfold encodeUnitOut initW
    rw [hassoc]
    simp only [hc1,
      end_clean sw e0 d0 etl dtl (0 + A.length + (e0 :: etl).length + 1
        + B.length) (((([] ++ A) ++ (e0 :: etl)) ++ [c]) ++ B) hne]
    simp
  · unfold decodeRead
    have hf : A.length + (e0 :: etl).length + B.length + 4
        = (A.length + (e0 :: etl).length + B.length + 3) + 1 := by omega
    rw [hf, Read_init _ sw (e0 :: etl) (d0 :: dtl) _ _ [] hne]
    simp only [if_neg hsw]
    have hS : A ++ (e0 :: etl) ++ [c] ++ B ++ (d0 :: dtl)
        = A ++ ((e0 :: etl) ++ (c :: (B ++ (d0 :: dtl)))) := by
      simp [List.append_assoc]
    rw [hS]
    have hf2 : A.length + (e0 :: etl).length + B.length + 3 + 1
        = A.length + ((e0 :: etl).length + (B.length + 4)) := by omega
    rw [hf2, Read_scan sw e0 d0 etl dtl A ((e0 :: etl).length + (B.length + 4))
      [] _ [] _ hA (by simp only [List.length_nil, Nat.zero_add,
        List.length_cons, List.length_append]; omega)]
    simp only [List.nil_append]
    have hf3 : (e0 :: etl).length + (B.length + 4)
        = (e0 :: etl).length + ((B.length + 3) + 1) := by omega
    rw [hf3, Read_escape_match sw e0 d0 etl dtl ((B.length + 3) + 1) A
      (c :: (B ++ (d0 :: dtl))) [] _ (by omega)]
    rw [Read_false_pos_step sw e0 d0 etl dtl (B.length + 3) A
      (B ++ (d0 :: dtl)) [] c _ (by omega) hcsw hcd
      (by simp only [List.length_append, List.length_cons]; omega)]
    have hS2 : c :: (B ++ (d0 :: dtl)) = (c :: B) ++ ((d0 :: dtl) ++ []) := by
      simp
    rw [hS2]
    have hf4 : B.length + 3 = (c :: B).length + (0 + 2) := by
      simp only [List.length_cons]
    rw [hf4, Read_scan sw e0 d0 etl dtl (c :: B) (0 + 2) (A ++ (e0 :: etl))
      ((d0 :: dtl) ++ []) [] _
      (by
        intro b hb
        rcases List.mem_cons.mp hb with hb1 | hb2
        · exact hb1 ▸ ⟨hce, hcd⟩
        · exact hB b hb2)
      (by simp only [List.length_append, List.length_cons]; omega)]
    have h5 := Read_finish sw e0 d0 etl dtl 0
      ((A ++ (e0 :: etl)) ++ (c :: B)) [] []
      (A.length + (e0 :: etl).length + B.length + 2) (by simp)
      (by simp only [List.length_append, List.length_cons]; omega)
      (Ne.symm hed)
    rw [h5]
    simp [runningR, initR]

/-- Witness for C5's amended escape-literal round trip at a concrete
instance. -/
theorem c5_escape_literal_witness :
    ((1 : Nat) ≠ 3 ∧ (38 : Nat) ≠ 0 ∧ ([2] : List Nat) ≠ [] ∧
      (7 : Nat) ≠ 38 ∧ (7 : Nat) ≠ 1 ∧ (7 : Nat) ≠ 3) ∧
    encodeUnitOut [1, 2] [3, 4] 38 [9, 1, 2, 7, 8]
      = some [9, 1, 2, 7, 8, 3, 4] ∧
    decodeRead [1, 2] [3, 4] 38 [9, 1, 2, 7, 8, 3, 4] 8 6
      = .out [9, 1, 2, 7, 8] (some .eos) (runningR [1, 2] [3, 4] 38 []) :=
  ⟨⟨by decide, by decide, by decide, by decide, by decide, by decide⟩,
    c5_escape_literal 1 3 38 7 [2] [4] [9] [8] (by decide) (by decide)
      (by decide) (by decide) (by decide) (by decide) (by decide)
      (by decide)⟩

/-- Witness for C8's reset property at a concrete writer. -/
theorem c8_end_reset_witness :
    ((initW [1, 2] [3, 4] 38).Escape ≠ (initW [1, 2] [3, 4] 38).Delimiter ∧
      (initW [1, 2] [3, 4] 38).Delimiter ≠ []) ∧
    (∃ n w1, (initW [1, 2] [3, 4] 38).End = .ok (n, w1) ∧ w1.index = 0 ∧
      w1.buffer = [] ∧ w1.escape = [] ∧ w1.count = 0 ∧
      w1.End = .ok ((initW [1, 2] [3, 4] 38).Delimiter.length,
        { w1 with out := w1.out ++ (initW [1, 2] [3, 4] 38).Delimiter })) :=
  ⟨⟨by decide, by decide⟩,
    c8_end_reset (initW [1, 2] [3, 4] 38) (by decide) (by decide)⟩
